import Mathlib

/-!
# Verification of the ansible-risk-insight risk detector

Shallow embedding of `src/ansible_risk_insight/risk_detector.py` and of the
`homebrew` concretizer in
`src/ansible_risk_insight/annotators/sample_custom_annotator.py`, together
with theorems settling the specification claims about them.

Python string operations used by the source (`str.split`, `str.replace`,
`str.splitlines`, `str.upper`, `os.path.basename`, formatting of lists) are
embedded as structurally recursive functions over `List Char`, so that every
definition evaluates inside the kernel on concrete inputs.
-/

namespace AnsibleRiskInsight

/-! ## Python string primitives -/

/-- Splitting helper over character lists.  `fuel` is always at least the
length of the list being split, so the fuel-exhausted branch is unreachable
for the wrapper below. -/
def splitCharsAux (sep : List Char) : Nat → List Char → List (List Char)
  | _, [] => [[]]
  | 0, l => [l]
  | fuel + 1, c :: rest =>
    if sep ≠ [] ∧ sep.isPrefixOf (c :: rest) then
      [] :: splitCharsAux sep fuel ((c :: rest).drop sep.length)
    else
      match splitCharsAux sep fuel rest with
      | [] => [[c]]
      | g :: gs => (c :: g) :: gs

/-- Python `s.split(sep)` / Lean-reducible version of `String.splitOn` for a
non-empty separator (the source never splits on the empty string). -/
def pySplit (s : String) (sep : String) : List String :=
  if sep = "" then [s]
  else (splitCharsAux sep.data s.data.length s.data).map String.mk

/-- Replacement helper over character lists; `fuel` is at least the length of
the subject list and the pattern is non-empty in every use. -/
def replaceCharsAux (pat rep : List Char) : Nat → List Char → List Char
  | _, [] => []
  | 0, l => l
  | fuel + 1, c :: rest =>
    if pat ≠ [] ∧ pat.isPrefixOf (c :: rest) then
      rep ++ replaceCharsAux pat rep fuel ((c :: rest).drop pat.length)
    else
      c :: replaceCharsAux pat rep fuel rest

/-- Python `s.replace(pat, rep)` (all non-overlapping occurrences, left to
right). -/
def pyReplace (s pat rep : String) : String :=
  if pat = "" then s
  else String.mk (replaceCharsAux pat.data rep.data s.data.length s.data)

/-- Python `str.upper()` restricted to ASCII, which is all the source applies
it to (root-type labels). -/
def asciiUpper (s : String) : String :=
  String.mk (s.data.map (fun c =>
    if 97 ≤ c.toNat ∧ c.toNat ≤ 122 then Char.ofNat (c.toNat - 32) else c))

/-- Python `str.splitlines()` for newline-separated text: like splitting on
`"\n"` but without a trailing empty line. -/
def pySplitlines (s : String) : List String :=
  if s = "" then []
  else
    let parts := pySplit s "\n"
    if ("\n".data).isSuffixOf s.data then parts.dropLast else parts

/-- Python `os.path.basename`: the final path component. -/
def pyBasename (p : String) : String :=
  (pySplit p "/").getLastD ""

/-- Python `repr` of a list of strings, as produced by `"{}".format(lst)`. -/
def pyStrListRepr (xs : List String) : String :=
  let q := String.singleton (Char.ofNat 39)
  "[" ++ String.intercalate ", " (xs.map (fun s => q ++ s ++ q)) ++ "]"

/-- Substring helper over character lists. -/
def containsSubChars (needle : List Char) : List Char → Bool
  | [] => decide (needle = [])
  | c :: rest => needle.isPrefixOf (c :: rest) || containsSubChars needle rest

/-- Python `needle in hay` on strings. -/
def pyIn (needle hay : String) : Bool :=
  containsSubChars needle.data hay.data

/-- The 90-character separator line `"-" * 90`. -/
def sep90 : String := String.mk (List.replicate 90 (Char.ofNat 45))

/-! ## `indent` (risk_detector.py, lines 30-33) -/

/-- `indent(multi_line_txt, level)` from risk_detector.py: keep the non-blank
lines, prefix each with `level` spaces, and join with newlines. -/
def indentTxt (multi_line_txt : String) (level : Nat) : String :=
  let lines := (pySplitlines multi_line_txt).filter
    (fun line => pyReplace line " " "" ≠ "")
  String.intercalate "\n"
    (lines.map (fun line => String.mk (List.replicate level (Char.ofNat 32)) ++ line))

/-! ## Key utilities

The repository's `keyutil` module is not among the provided sources; only its
callers are.  Its two exports used here are modelled from the spec. -/

/-- Modelled from the spec: `key_delimiter` from the missing `keyutil` module.
The spec describes `root_key` as "a string encoding `<type>:<path-or-name>`",
so the delimiter separating the type tag from the payload is `":"`. -/
def key_delimiter : String := ":"

/-- Modelled from the spec: `detect_type` from the missing `keyutil` module.
The spec requires that "type and display name must be derivable from
`root_key` alone" for keys of form `<type>:<path-or-name>`; the type is the
segment before the first delimiter. -/
def detect_type (key : String) : String :=
  (pySplit key key_delimiter).headD ""

/-- `key2name` from risk_detector.py (lines 36-41).  The Python function
falls off the end and returns `None` when the type is neither `"playbook"`
nor `"role"`; that is `Option.none` here. -/
def key2name (key : String) : Option String :=
  let t := detect_type key
  if t = "playbook" then some (pyBasename ((pySplit key key_delimiter).getLastD ""))
  else if t = "role" then some ((pySplit key key_delimiter).getLastD "")
  else none

/-- Python `"{}".format(x)` where `x` is `tree_root_name` (a string or
`None`). -/
def fmtOptName (o : Option String) : String := o.getD "None"

/-! ## Data model -/

/-- The part of a task's static spec that the detector reads. -/
structure TaskSpec where
  defined_in : String
deriving DecidableEq, Repr

/-- One task invocation (`TaskCall`); the detector only touches `spec`. -/
structure TaskCall where
  spec : TaskSpec
deriving DecidableEq, Repr

/-- One call tree: a root key plus the task calls reachable from it. -/
structure TaskCallsInTree where
  root_key : String
  taskcalls : List TaskCall
deriving DecidableEq, Repr

/-- An element of the input forest.  The Python loop begins with
`if not isinstance(taskcalls_in_tree, TaskCallsInTree): continue`; the
`notATree` constructor stands for an input element of any other type. -/
inductive ForestElem where
  | tree (t : TaskCallsInTree)
  | notATree
deriving DecidableEq, Repr

/-- A rule (`rules.base` contract): name, gates, placement policy, all-ok
template, and the pure `check` function.  The source's `check` returns a
triple `(matched, _, message)` whose middle component `detect` discards; it
is omitted here. -/
structure Rule where
  name : String
  enabled : Bool
  separate_report : Bool
  all_ok_message : String
  check : List TaskCall → Option String → Bool × String

/-- One record of the structured report's `details` lists.  Separate-report
records have three keys; inline records additionally carry
`playbooks_use_this_role` (`some` here, `none` for the three-key shape). -/
structure ResultRecord where
  type : String
  name : Option String
  message : String
  playbooks_use_this_role : Option (List String)
deriving DecidableEq, Repr

/-- One row of a tabulated rule's shared table:
`[tree_root_label, tree_root_name, message]`. -/
structure SepRow where
  label : String
  name : Option String
  message : String
deriving DecidableEq, Repr

/-- Value of `separate_report[rule_name]`: the rule object and its matched
rows. -/
structure SepEntry where
  rule : Rule
  matched : List SepRow

/-! ## Python dict / set operations (insertion-ordered association lists) -/

/-- `m.get(k)` on an insertion-ordered dict. -/
def alistGet {α : Type} : List (String × α) → String → Option α
  | [], _ => none
  | (k', v) :: m, k => if k' = k then some v else alistGet m k

/-- `m.get(k, d)`. -/
def alistGetD {α : Type} (m : List (String × α)) (k : String) (d : α) : α :=
  (alistGet m k).getD d

/-- `k in m`. -/
def alistHas {α : Type} : List (String × α) → String → Bool
  | [], _ => false
  | (k', _) :: m, k => k' = k || alistHas m k

/-- `m[k] = v`: update in place if the key exists, else append. -/
def alistSet {α : Type} (m : List (String × α)) (k : String) (v : α) :
    List (String × α) :=
  if alistHas m k then m.map (fun p => if p.1 = k then (k, v) else p)
  else m ++ [(k, v)]

/-- `s.union(xs)` on a set modelled as a duplicate-free list; only membership
and cardinality of the result are ever observed. -/
def setUnion (s : List String) (xs : List String) : List String :=
  xs.foldl (fun acc x => if x ∈ acc then acc else acc ++ [x]) s

/-! ## The homebrew concretizer (sample_custom_annotator.py, lines 53-61) -/

/-- A Python value, as far as module options are concerned. -/
inductive PyVal where
  | str (s : String)
  | int (n : Int)
  | bool (b : Bool)
  | vlist (xs : List PyVal)
  | vdict (entries : List (String × PyVal))
  | vnone

/-- `k in options` for a Python dict. -/
def pyDictHas : List (String × PyVal) → String → Bool
  | [], _ => false
  | (k', _) :: es, k => k' = k || pyDictHas es k

/-- `options[k]` for a Python dict (first binding; dict literals have unique
keys). -/
def pyDictGet : List (String × PyVal) → String → PyVal
  | [], _ => PyVal.vnone
  | (k', v) :: es, k => if k' = k then v else pyDictGet es k

mutual

/-- Structural equality on `PyVal` (Python `==`). -/
def pyValEq : PyVal → PyVal → Bool
  | PyVal.str a, PyVal.str b => a = b
  | PyVal.int a, PyVal.int b => a = b
  | PyVal.bool a, PyVal.bool b => a = b
  | PyVal.vnone, PyVal.vnone => true
  | PyVal.vlist a, PyVal.vlist b => pyValListEq a b
  | PyVal.vdict a, PyVal.vdict b => pyValDictEq a b
  | _, _ => false

/-- Elementwise equality of Python lists. -/
def pyValListEq : List PyVal → List PyVal → Bool
  | [], [] => true
  | a :: as_, b :: bs => pyValEq a b && pyValListEq as_ bs
  | _, _ => false

/-- Entrywise equality of Python dict entry lists. -/
def pyValDictEq : List (String × PyVal) → List (String × PyVal) → Bool
  | [], [] => true
  | (ka, va) :: as_, (kb, vb) :: bs =>
      decide (ka = kb) && pyValEq va vb && pyValDictEq as_ bs
  | _, _ => false

end

/-- `SampleCustomAnnotator.homebrew(options)`: returns `{}` unless `options`
is a dict; copies `name` into `pkg`; sets `delete` exactly when
`state == "absent"`. -/
def homebrew (options : PyVal) : List (String × PyVal) :=
  match options with
  | PyVal.vdict es =>
      let data : List (String × PyVal) := []
      let data := if pyDictHas es "name" then data ++ [("pkg", pyDictGet es "name")] else data
      let data :=
        if pyDictHas es "state" ∧ pyValEq (pyDictGet es "state") (PyVal.str "absent") = true
        then data ++ [("delete", PyVal.bool true)] else data
      data
  | _ => []

/-! ## The detector (risk_detector.py, `detect`, lines 62-208)

The source's `detect` loads the registered rules itself via `load_rules()`
(the rule registry `ansible_risk_insight.rules` is not among the provided
sources), so the embedding takes the loaded rule list as a parameter.  The
imperative loop over the forest is expressed as a fold of `detectStep` over
the input list; the loop over rules inside it as a fold of `ruleStep`. -/

/-- `make_subject_str` (lines 51-59). -/
def make_subject_str (playbook_num : Nat) (role_num : Nat) : String :=
  if playbook_num > 0 ∧ role_num > 0 then "playbooks/roles"
  else if playbook_num > 0 then "playbooks"
  else if role_num > 0 then "roles"
  else ""

/-- Modelled from the spec: `subject_placeholder` from `rules.base` (not
among the provided sources).  The spec calls `all_ok_message` "a template
string with a subject placeholder"; the placeholder's concrete text is
immaterial, fixed here as a distinguished token. -/
def subject_placeholder : String := "<SUBJECT>"

/-- The mutable state threaded through the loop body of `detect`
(lines 71-83). -/
structure DetectState where
  report_num : Nat
  playbook_count_total : Nat
  playbook_count_risk : Nat
  role_count_total : Nat
  role_count_risk : Nat
  separate_report : List (String × SepEntry)
  role_to_playbook_mappings : List (String × List String)
  risk_found_playbooks : List String
  tmp_result_txt : String
  result_dict : List (String × List ResultRecord)

/-- The state before the first loop iteration. -/
def initState : DetectState where
  report_num := 1
  playbook_count_total := 0
  playbook_count_risk := 0
  role_count_total := 0
  role_count_risk := 0
  separate_report := []
  role_to_playbook_mappings := []
  risk_found_playbooks := []
  tmp_result_txt := ""
  result_dict := []

/-- The role-inclusion segment check of lines 97-99: tasks whose
`defined_in` splits as `roles / <role name> / ...` name that role.  (When
`defined_in` is exactly `"roles"`, the source's `parts[1]` raises and aborts
the run; the embedding totalises that unreachable-in-practice case to the
empty role name.) -/
def taskRole (tc : TaskCall) : Option String :=
  let parts := pySplit tc.spec.defined_in "/"
  if parts.headD "" = "roles" then some (parts.getD 1 "") else none

/-- The body of the task loop of lines 96-103, registering
`role name → playbook name` mappings. -/
def registerTask (tree_root_name : String)
    (m : List (String × List String)) (tc : TaskCall) :
    List (String × List String) :=
  match taskRole tc with
  | some role_name =>
      let ms := alistGetD m role_name []
      let ms := if tree_root_name ∈ ms then ms else ms ++ [tree_root_name]
      alistSet m role_name ms
  | none => m

/-- `role_to_playbook_mappings.get(tree_root_name, [])` where the name may
be Python `None` (lines 141 and 155); `None` is never a key. -/
def mappingsGetName (m : List (String × List String)) (name : Option String) :
    List String :=
  match name with
  | some s => alistGetD m s []
  | none => []

/-- The numbered incident section appended to `tmp_result_txt` by
lines 154-160: header `#n <TYPE> - <name>`, optional `used_in` line, the
buffered per-rule messages, and the separator. -/
def incidentSection (report_num : Nat) (tree_root_type : String)
    (tree_root_name : Option String) (used_in_playbooks : List String)
    (alt : String) : String :=
  "#" ++ toString report_num ++ " " ++ asciiUpper tree_root_type ++ " - " ++
    fmtOptName tree_root_name ++ "\n" ++
  (if used_in_playbooks.length > 0 then
    "(used_in: " ++ pyStrListRepr used_in_playbooks ++ ")\n" else "") ++
  alt ++ sep90 ++ "\n"

/-- The variables local to one tree iteration that the rule loop
(lines 110-152) threads, together with the two dicts it may update. -/
structure RuleAcc where
  separate_report : List (String × SepEntry)
  result_dict : List (String × List ResultRecord)
  do_report : Bool
  tmp_result_txt_alt : String

/-- The body of the rule loop (lines 110-152) for one rule. -/
def ruleStep (extra : Option String) (tree_root_type : String)
    (tree_root_name : Option String) (is_playbook : Bool)
    (taskcalls : List TaskCall) (mappings : List (String × List String))
    (acc : RuleAcc) (rule : Rule) : RuleAcc :=
  if rule.enabled = false then acc
  else
    let rule_name := rule.name
    let res := rule.check taskcalls extra
    let matched := res.1
    let message := res.2
    let sep :=
      if rule.separate_report ∧ alistHas acc.separate_report rule_name = false then
        acc.separate_report ++ [(rule_name, { rule := rule, matched := [] })]
      else acc.separate_report
    if matched then
      if rule.separate_report then
        let entry := alistGetD sep rule_name { rule := rule, matched := [] }
        let sep := alistSet sep rule_name
          { entry with matched := entry.matched ++
              [{ label := tree_root_type, name := tree_root_name, message := message }] }
        let rd :=
          if alistHas acc.result_dict rule_name then acc.result_dict
          else acc.result_dict ++ [(rule_name, [])]
        let rd := alistSet rd rule_name (alistGetD rd rule_name [] ++
          [{ type := tree_root_type, name := tree_root_name, message := message
             playbooks_use_this_role := none }])
        { acc with separate_report := sep, result_dict := rd }
      else
        if is_playbook then { acc with separate_report := sep }
        else
          let used_in_playbooks := mappingsGetName mappings tree_root_name
          let rd :=
            if alistHas acc.result_dict rule_name then acc.result_dict
            else acc.result_dict ++ [(rule_name, [])]
          let rd := alistSet rd rule_name (alistGetD rd rule_name [] ++
            [{ type := tree_root_type, name := tree_root_name, message := message
               playbooks_use_this_role := some used_in_playbooks }])
          { acc with
              separate_report := sep
              result_dict := rd
              do_report := true
              tmp_result_txt_alt := acc.tmp_result_txt_alt ++ rule_name ++ "\n" ++
                indentTxt message 0 ++ "\n" }
    else { acc with separate_report := sep }

/-- One iteration of the forest loop (lines 84-166). -/
def detectStep (rules : List Rule) (extra : Option String)
    (st : DetectState) (e : ForestElem) : DetectState :=
  match e with
  | ForestElem.notATree => st
  | ForestElem.tree t =>
    let tree_root_key := t.root_key
    let tree_root_type := detect_type tree_root_key
    let tree_root_name := key2name tree_root_key
    let is_playbook : Bool := tree_root_type == "playbook"
    let st :=
      if is_playbook then
        { st with
            playbook_count_total := st.playbook_count_total + 1
            role_to_playbook_mappings := t.taskcalls.foldl
              (registerTask (tree_root_name.getD ""))
              st.role_to_playbook_mappings }
      else
        { st with role_count_total := st.role_count_total + 1 }
    let acc0 : RuleAcc :=
      { separate_report := st.separate_report
        result_dict := st.result_dict
        do_report := false
        tmp_result_txt_alt := "" }
    let acc := rules.foldl
      (ruleStep extra tree_root_type tree_root_name is_playbook t.taskcalls
        st.role_to_playbook_mappings) acc0
    let st := { st with
                  separate_report := acc.separate_report
                  result_dict := acc.result_dict }
    if acc.do_report ∧ acc.tmp_result_txt_alt ≠ "" then
      let used_in_playbooks := mappingsGetName st.role_to_playbook_mappings tree_root_name
      { st with
        tmp_result_txt := st.tmp_result_txt ++
          incidentSection st.report_num tree_root_type tree_root_name
            used_in_playbooks acc.tmp_result_txt_alt
        risk_found_playbooks := setUnion st.risk_found_playbooks used_in_playbooks
        report_num := st.report_num + 1
        playbook_count_risk :=
          if is_playbook then st.playbook_count_risk + 1 else st.playbook_count_risk
        role_count_risk :=
          if is_playbook then st.role_count_risk else st.role_count_risk + 1 }
    else st

/-- One entry of the structured report's summary. -/
structure SummaryEntry where
  total : Nat
  risk_found : Nat
deriving DecidableEq, Repr

/-- The structured report `data_report` (line 76 and lines 167-188):
`summary` is a dict that receives a `"playbooks"` and/or a `"roles"` entry,
`details` is the list of `{"rule": name, "results": [...]}` pairs copied
from `result_dict`. -/
structure DataReport where
  playbooks : Option SummaryEntry
  roles : Option SummaryEntry
  details : List (String × List ResultRecord)
deriving DecidableEq, Repr

/-- Stand-in for the external `tabulate(rows, tablefmt="plain")` library
call (not part of this repository): cells joined by two spaces, rows by
newlines.  Only row counts matter to the claims. -/
def tabulatePlain (rows : List SepRow) : String :=
  String.intercalate "\n" (rows.map (fun r =>
    r.label ++ "  " ++ fmtOptName r.name ++ "  " ++ r.message))

/-- One tabulated rule's section of the narrative report (the body of the
loop of lines 193-207). -/
def sepSectionTxt (playbook_total role_total : Nat) (label : String)
    (entry : SepEntry) : String :=
  let placeholder := subject_placeholder
  let subject := make_subject_str playbook_total role_total
  let table_txt := "  All " ++ placeholder ++ " are OK"
  let table_txt :=
    if entry.rule.all_ok_message ≠ "" then "  " ++ entry.rule.all_ok_message
    else table_txt
  let table_txt :=
    if entry.matched.length > 0 then tabulatePlain entry.matched
    else pyReplace table_txt placeholder subject
  label ++ "\n" ++ indentTxt table_txt 0 ++ "\n" ++ sep90 ++ "\n"

/-- The `extra_check_args` forwarded to every `check` (lines 64-66): the
collection name when non-empty, nothing otherwise. -/
def extraArgs (collection_name : String) : Option String :=
  if collection_name ≠ "" then some collection_name else none

/-- `detect` (lines 62-208), with the loaded rule list as a parameter.
Returns `(result_txt, data_report)`. -/
def detect (rules : List Rule) (taskcalls_in_trees : List ForestElem)
    (collection_name : String) : String × DataReport :=
  let extra : Option String := extraArgs collection_name
  let header := sep90 ++ "\n" ++ "Ansible Risk Insight Report\n" ++ sep90 ++ "\n"
  let st := taskcalls_in_trees.foldl (detectStep rules extra) initState
  let result_txt := header ++
    (if st.playbook_count_total > 0 then
      "Playbooks\n" ++ "  Total: " ++ toString st.playbook_count_total ++ "\n" ++
      "  Risk Found: " ++ toString st.risk_found_playbooks.length ++ "\n"
     else "") ++
    (if st.role_count_total > 0 then
      "Roles\n" ++ "  Total: " ++ toString st.role_count_total ++ "\n" ++
      "  Risk Found: " ++ toString st.role_count_risk ++ "\n"
     else "") ++
    sep90 ++ "\n" ++
    st.tmp_result_txt ++
    String.join (st.separate_report.map (fun p =>
      sepSectionTxt st.playbook_count_total st.role_count_total p.1 p.2))
  let data_report : DataReport :=
    { playbooks :=
        if st.playbook_count_total > 0 then
          some { total := st.playbook_count_total, risk_found := st.playbook_count_risk }
        else none
      roles :=
        if st.role_count_total > 0 then
          some { total := st.role_count_total, risk_found := st.role_count_risk }
        else none
      details := st.result_dict }
  (result_txt, data_report)

/-- The detector state before processing input index `n` (the fold of
`detectStep` over the first `n` forest elements). -/
def statesAt (rules : List Rule) (extra : Option String)
    (forest : List ForestElem) (n : Nat) : DetectState :=
  (forest.take n).foldl (detectStep rules extra) initState

/-- The `used_in` view of the mappings for role name `R` in a given state. -/
def usedInView (st : DetectState) (R : String) : List String :=
  alistGetD st.role_to_playbook_mappings R []

/-- The rows accumulated so far in a tabulated rule's shared table. -/
def sepRowsOf (sr : List (String × SepEntry)) (rn : String) : List SepRow :=
  match alistGet sr rn with
  | some e => e.matched
  | none => []

/-- Does an enabled tabulated rule append a table row and a structured record
for this tree?  (The condition of lines 111, 114, 121-122.) -/
def sepAppends (extra : Option String) (taskcalls : List TaskCall) (r : Rule) : Bool :=
  r.enabled && r.separate_report && (r.check taskcalls extra).1

/-- Does an enabled inline rule fire on this tree?  (The condition of
lines 111, 114, 121, 135-136.) -/
def inlAppends (extra : Option String) (taskcalls : List TaskCall)
    (is_playbook : Bool) (r : Rule) : Bool :=
  r.enabled && !r.separate_report && (r.check taskcalls extra).1 && !is_playbook

/-- The structured record an enabled rule appends when it fires on a tree
(three-key shape for tabulated rules, four-key shape for inline rules). -/
def recordOf (extra : Option String) (tree_root_type : String)
    (tree_root_name : Option String) (taskcalls : List TaskCall)
    (mappings : List (String × List String)) (r : Rule) : ResultRecord :=
  if r.separate_report then
    { type := tree_root_type, name := tree_root_name
      message := (r.check taskcalls extra).2, playbooks_use_this_role := none }
  else
    { type := tree_root_type, name := tree_root_name
      message := (r.check taskcalls extra).2
      playbooks_use_this_role := some (mappingsGetName mappings tree_root_name) }

/-! ## Concrete fixtures for witnesses and counterexamples -/

/-- A playbook tree whose only task is defined under `roles/r1/`. -/
def pbTree1 : TaskCallsInTree :=
  { root_key := "playbook:proj/site.yml"
    taskcalls := [{ spec := { defined_in := "roles/r1/tasks/main.yml" } }] }

/-- A second playbook tree with no role-inclusion tasks. -/
def pbTree2 : TaskCallsInTree :=
  { root_key := "playbook:proj/other.yml"
    taskcalls := [{ spec := { defined_in := "other.yml" } }] }

/-- A third playbook tree with no tasks. -/
def pbTree3 : TaskCallsInTree :=
  { root_key := "playbook:proj/third.yml", taskcalls := [] }

/-- A role tree named `r1`. -/
def roleTree1 : TaskCallsInTree := { root_key := "role:r1", taskcalls := [] }

/-- A role tree named `r2`. -/
def roleTree2 : TaskCallsInTree := { root_key := "role:r2", taskcalls := [] }

/-- A tree whose `root_key` parses to neither `playbook` nor `role`. -/
def badTree : TaskCallsInTree := { root_key := "garbage", taskcalls := [] }

/-- An enabled inline rule that matches every tree. -/
def inlineRule : Rule :=
  { name := "inline-rule", enabled := true, separate_report := false
    all_ok_message := "", check := fun _ _ => (true, "bad thing") }

/-- An enabled inline rule that never matches. -/
def inlineNever : Rule :=
  { name := "inline-never", enabled := true, separate_report := false
    all_ok_message := "", check := fun _ _ => (false, "") }

/-- An enabled tabulated rule that matches every tree. -/
def sepRule : Rule :=
  { name := "sep-rule", enabled := true, separate_report := true
    all_ok_message := "All <SUBJECT> are fine", check := fun _ _ => (true, "dep found") }

/-- An enabled tabulated rule that never matches. -/
def sepNever : Rule :=
  { name := "sep-never", enabled := true, separate_report := true
    all_ok_message := "All <SUBJECT> are fine", check := fun _ _ => (false, "") }

/-- Does processing this forest element append at least one structured
record under rule name `rn`?  (Tabulated rules append on any tree they
match; inline rules only on non-playbook trees.) -/
def treeYieldsRecord (extra : Option String) (rules : List Rule) (rn : String) :
    ForestElem → Bool
  | ForestElem.tree t => rules.any (fun r => r.name == rn &&
      (sepAppends extra t.taskcalls r ||
       inlAppends extra t.taskcalls (detect_type t.root_key == "playbook") r))
  | ForestElem.notATree => false

/-- A forest of 3 playbooks followed by 2 roles. -/
def forest32 : List ForestElem :=
  [ForestElem.tree pbTree1, ForestElem.tree pbTree2, ForestElem.tree pbTree3,
   ForestElem.tree roleTree1, ForestElem.tree roleTree2]

/-- Role `r1` processed before the playbook that links it, then again after:
index 0 is a role tree named `r1`, index 1 the playbook linking `r1`,
index 2 the same role tree again. -/
def orderingForest : List ForestElem :=
  [ForestElem.tree roleTree1, ForestElem.tree pbTree1, ForestElem.tree roleTree1]

/-! ## Dictionary lemmas -/

theorem alistGet_nil {α : Type} (k : String) : alistGet ([] : List (String × α)) k = none := rfl

theorem alistGet_cons {α : Type} (k₀ k : String) (v₀ : α) (m : List (String × α)) :
    alistGet ((k₀, v₀) :: m) k = if k₀ = k then some v₀ else alistGet m k := rfl

theorem alistHas_cons {α : Type} (k₀ k : String) (v₀ : α) (m : List (String × α)) :
    alistHas ((k₀, v₀) :: m) k = (decide (k₀ = k) || alistHas m k) := rfl

theorem alistGet_map_set_self {α : Type} (m : List (String × α)) (k : String) (v : α)
    (h : alistHas m k = true) :
    alistGet (m.map (fun p => if p.1 = k then (k, v) else p)) k = some v := by
  induction m with
  | nil => simp [alistHas] at h
  | cons p m ih =>
    obtain ⟨k₀, v₀⟩ := p
    by_cases hk : k₀ = k
    · simp [alistGet_cons, hk]
    · rw [alistHas_cons] at h
      simp only [decide_eq_true_eq, Bool.or_eq_true] at h
      rcases h with h | h
      · exact absurd h hk
      · simpa [alistGet_cons, hk] using ih h

theorem alistGet_map_set_ne {α : Type} (m : List (String × α)) (k k' : String) (v : α)
    (h : k' ≠ k) :
    alistGet (m.map (fun p => if p.1 = k then (k, v) else p)) k' = alistGet m k' := by
  induction m with
  | nil => rfl
  | cons p m ih =>
    obtain ⟨k₀, v₀⟩ := p
    by_cases hk : k₀ = k
    · have hne : k ≠ k' := fun hh => h hh.symm
      have hne₀ : k₀ ≠ k' := hk ▸ hne
      simp [alistGet_cons, hk, hne, hne₀, ih]
    · by_cases hk' : k₀ = k'
      · simp [alistGet_cons, hk, hk', h]
      · simp [alistGet_cons, hk, hk', ih]

theorem alistGet_append_single_self {α : Type} (m : List (String × α)) (k : String) (v : α)
    (h : alistHas m k = false) :
    alistGet (m ++ [(k, v)]) k = some v := by
  induction m with
  | nil => simp [alistGet]
  | cons p m ih =>
    obtain ⟨k₀, v₀⟩ := p
    rw [alistHas_cons] at h
    simp only [Bool.or_eq_false_iff, decide_eq_false_iff_not] at h
    simpa [alistGet_cons, h.1] using ih h.2

theorem alistGet_append_single_ne {α : Type} (m : List (String × α)) (k k' : String) (v : α)
    (h : k' ≠ k) :
    alistGet (m ++ [(k, v)]) k' = alistGet m k' := by
  induction m with
  | nil =>
    have hne : k ≠ k' := fun hh => h hh.symm
    simp [alistGet_nil, alistGet_cons, hne]
  | cons p m ih =>
    obtain ⟨k₀, v₀⟩ := p
    by_cases hk' : k₀ = k'
    · simp [alistGet_cons, hk']
    · simp [alistGet_cons, hk', ih]

theorem alistGet_set_self {α : Type} (m : List (String × α)) (k : String) (v : α) :
    alistGet (alistSet m k v) k = some v := by
  unfold alistSet
  by_cases h : alistHas m k = true
  · simpa [h] using alistGet_map_set_self m k v h
  · simp only [Bool.not_eq_true] at h
    simpa [h] using alistGet_append_single_self m k v h

theorem alistGet_set_ne {α : Type} (m : List (String × α)) (k k' : String) (v : α)
    (h : k' ≠ k) :
    alistGet (alistSet m k v) k' = alistGet m k' := by
  unfold alistSet
  by_cases hh : alistHas m k = true
  · simpa [hh] using alistGet_map_set_ne m k k' v h
  · simp only [Bool.not_eq_true] at hh
    simpa [hh] using alistGet_append_single_ne m k k' v h

theorem alistHas_map_set {α : Type} (m : List (String × α)) (k k' : String) (v : α) :
    alistHas (m.map (fun p => if p.1 = k then (k, v) else p)) k' = alistHas m k' := by
  induction m with
  | nil => rfl
  | cons p m ih =>
    obtain ⟨k₀, v₀⟩ := p
    by_cases hk : k₀ = k
    · simp [alistHas_cons, hk, ih]
    · simp [alistHas_cons, hk, ih]

theorem alistHas_append_single {α : Type} (m : List (String × α)) (k k' : String) (v : α) :
    alistHas (m ++ [(k, v)]) k' = (alistHas m k' || decide (k = k')) := by
  induction m with
  | nil => simp [alistHas, alistHas_cons]
  | cons p m ih =>
    obtain ⟨k₀, v₀⟩ := p
    simp [alistHas_cons, ih, Bool.or_assoc]

theorem alistHas_set {α : Type} (m : List (String × α)) (k k' : String) (v : α) :
    alistHas (alistSet m k v) k' = (alistHas m k' || decide (k = k')) := by
  unfold alistSet
  by_cases h : alistHas m k = true
  · by_cases hk : k = k'
    · subst hk; simp [h, alistHas_map_set]
    · simp [h, alistHas_map_set, hk]
  · simp only [Bool.not_eq_true] at h
    simp [h, alistHas_append_single]

theorem alistGet_eq_none_of_not_has {α : Type} (m : List (String × α)) (k : String)
    (h : alistHas m k = false) : alistGet m k = none := by
  induction m with
  | nil => rfl
  | cons p m ih =>
    obtain ⟨k₀, v₀⟩ := p
    rw [alistHas_cons] at h
    simp only [Bool.or_eq_false_iff, decide_eq_false_iff_not] at h
    simp [alistGet_cons, h.1, ih h.2]

/-! ## Role-to-playbook mapping lemmas -/

theorem registerTask_view (name : String) (m : List (String × List String))
    (tc : TaskCall) (R : String) :
    alistGetD (registerTask name m tc) R [] =
      if taskRole tc = some R ∧ name ∉ alistGetD m R []
      then alistGetD m R [] ++ [name] else alistGetD m R [] := by
  unfold registerTask
  cases htr : taskRole tc with
  | none => simp [htr]
  | some rn =>
    by_cases hR : rn = R
    · subst hR
      by_cases hmem : name ∈ alistGetD m rn []
      · simp [htr, hmem, alistGetD, alistGet_set_self]
      · simp [htr, hmem, alistGetD, alistGet_set_self]
    · have hne : R ≠ rn := fun hh => hR hh.symm
      have hcond : ¬(some rn = some R ∧ name ∉ alistGetD m R []) := by
        intro hh
        exact hR (Option.some.inj hh.1)
      simp only [htr, hcond, if_neg]
      simp [alistGetD, alistGet_set_ne _ rn R _ hne]

theorem foldRegister_view (name R : String) (tcs : List TaskCall) :
    ∀ m : List (String × List String),
    alistGetD (tcs.foldl (registerTask name) m) R [] =
      if (∃ tc ∈ tcs, taskRole tc = some R) ∧ name ∉ alistGetD m R []
      then alistGetD m R [] ++ [name] else alistGetD m R [] := by
  induction tcs with
  | nil => intro m; simp
  | cons tc tcs ih =>
    intro m
    rw [List.foldl_cons, ih, registerTask_view]
    by_cases h1 : taskRole tc = some R
    · by_cases h2 : name ∈ alistGetD m R []
      · simp [h1, h2]
      · simp [h1, h2]
    · by_cases h2 : name ∈ alistGetD m R []
      · simp [h1, h2]
      · simp [h1, h2]

theorem foldRegister_grow (name R : String) (tcs : List TaskCall)
    (m : List (String × List String)) :
    ∃ suf, alistGetD (tcs.foldl (registerTask name) m) R [] = alistGetD m R [] ++ suf := by
  rw [foldRegister_view]
  split
  · exact ⟨[name], rfl⟩
  · exact ⟨[], (List.append_nil _).symm⟩

/-! ## Detect-step lemmas -/

theorem detectStep_notATree (rules : List Rule) (extra : Option String)
    (st : DetectState) :
    detectStep rules extra st ForestElem.notATree = st := rfl

theorem detectStep_mappings (rules : List Rule) (extra : Option String)
    (st : DetectState) (t : TaskCallsInTree) :
    (detectStep rules extra st (ForestElem.tree t)).role_to_playbook_mappings =
      if detect_type t.root_key = "playbook"
      then t.taskcalls.foldl (registerTask ((key2name t.root_key).getD ""))
            st.role_to_playbook_mappings
      else st.role_to_playbook_mappings := by
  simp only [detectStep]
  by_cases hp : detect_type t.root_key = "playbook" <;>
    simp only [hp, beq_iff_eq, if_true, if_false, beq_self_eq_true, ite_true, ite_false,
      reduceIte, if_pos, if_neg] <;>
    split <;> (try split) <;> simp [hp]

theorem detectStep_view_grow (rules : List Rule) (extra : Option String)
    (st : DetectState) (e : ForestElem) (R : String) :
    ∃ suf, usedInView (detectStep rules extra st e) R = usedInView st R ++ suf := by
  cases e with
  | notATree => exact ⟨[], by simp [detectStep_notATree, usedInView]⟩
  | tree t =>
    unfold usedInView
    rw [detectStep_mappings]
    split
    · exact foldRegister_grow _ R _ _
    · exact ⟨[], (List.append_nil _).symm⟩

/-! ## Rule-loop lemmas -/

theorem ruleStep_do_report (extra : Option String) (ty : String) (nm : Option String)
    (ipb : Bool) (tcs : List TaskCall) (maps : List (String × List String))
    (acc : RuleAcc) (r : Rule) :
    (ruleStep extra ty nm ipb tcs maps acc r).do_report
      = (acc.do_report || inlAppends extra tcs ipb r) := by
  unfold ruleStep inlAppends
  cases he : r.enabled <;> cases hs : r.separate_report <;>
    cases hm : (r.check tcs extra).1 <;> cases hb : ipb <;>
    simp [he, hs, hm, hb]

theorem ruleStep_alt (extra : Option String) (ty : String) (nm : Option String)
    (ipb : Bool) (tcs : List TaskCall) (maps : List (String × List String))
    (acc : RuleAcc) (r : Rule) :
    (ruleStep extra ty nm ipb tcs maps acc r).tmp_result_txt_alt
      = (if inlAppends extra tcs ipb r
         then acc.tmp_result_txt_alt ++ r.name ++ "\n" ++
           indentTxt (r.check tcs extra).2 0 ++ "\n"
         else acc.tmp_result_txt_alt) := by
  unfold ruleStep inlAppends
  cases he : r.enabled <;> cases hs : r.separate_report <;>
    cases hm : (r.check tcs extra).1 <;> cases hb : ipb <;>
    simp [he, hs, hm, hb]

theorem foldRules_do_report (extra : Option String) (ty : String) (nm : Option String)
    (ipb : Bool) (tcs : List TaskCall) (maps : List (String × List String))
    (rules : List Rule) :
    ∀ acc : RuleAcc,
    (rules.foldl (ruleStep extra ty nm ipb tcs maps) acc).do_report
      = (acc.do_report || rules.any (inlAppends extra tcs ipb)) := by
  induction rules with
  | nil => intro acc; simp
  | cons r rules ih =>
    intro acc
    rw [List.foldl_cons, ih, ruleStep_do_report]
    simp [Bool.or_assoc]

theorem alistGetD_ensure (rd : List (String × List ResultRecord)) (kn rn : String) :
    alistGetD (if alistHas rd kn then rd else rd ++ [(kn, [])]) rn []
      = alistGetD rd rn [] := by
  split
  · rfl
  · rename_i hnot
    simp only [Bool.not_eq_true] at hnot
    by_cases hk : kn = rn
    · subst hk
      rw [alistGetD, alistGet_append_single_self _ _ _ hnot, alistGetD,
        alistGet_eq_none_of_not_has _ _ hnot]
      rfl
    · rw [alistGetD, alistGet_append_single_ne _ _ _ _ (fun hh => hk hh.symm), alistGetD]

theorem alistGetD_ensure_set (rd : List (String × List ResultRecord)) (kn rn : String)
    (rec : ResultRecord) :
    alistGetD (alistSet (if alistHas rd kn then rd else rd ++ [(kn, [])]) kn
        (alistGetD (if alistHas rd kn then rd else rd ++ [(kn, [])]) kn [] ++ [rec])) rn []
      = alistGetD rd rn [] ++ (if kn = rn then [rec] else []) := by
  by_cases hk : kn = rn
  · subst hk
    rw [alistGetD, alistGet_set_self, Option.getD_some, alistGetD_ensure, if_pos rfl]
  · rw [alistGetD, alistGet_set_ne _ _ _ _ (fun hh => hk hh.symm)]
    have h2 := alistGetD_ensure rd kn rn
    rw [alistGetD] at h2
    rw [h2, if_neg hk, List.append_nil]

theorem alistHas_ensure_set (rd : List (String × List ResultRecord)) (kn rn : String)
    (v : List ResultRecord) :
    alistHas (alistSet (if alistHas rd kn then rd else rd ++ [(kn, [])]) kn v) rn
      = (alistHas rd rn || decide (kn = rn)) := by
  rw [alistHas_set]
  split
  · rfl
  · rw [alistHas_append_single]
    simp [Bool.or_assoc]

theorem sepRowsOf_matched_getD (sr : List (String × SepEntry)) (rn : String) (r : Rule) :
    (alistGetD sr rn { rule := r, matched := [] }).matched = sepRowsOf sr rn := by
  unfold alistGetD sepRowsOf
  cases alistGet sr rn <;> rfl

theorem sepRowsOf_ensure (sr : List (String × SepEntry)) (kn rn : String) (r : Rule)
    (h : alistHas sr kn = false) :
    sepRowsOf (sr ++ [(kn, { rule := r, matched := [] })]) rn = sepRowsOf sr rn := by
  unfold sepRowsOf
  by_cases hk : kn = rn
  · subst hk
    rw [alistGet_append_single_self _ _ _ h, alistGet_eq_none_of_not_has _ _ h]
  · rw [alistGet_append_single_ne _ _ _ _ (fun hh => hk hh.symm)]

theorem sepRowsOf_ensure_if (sr : List (String × SepEntry)) (kn rn : String) (r : Rule) :
    sepRowsOf (if alistHas sr kn = false
      then sr ++ [(kn, { rule := r, matched := [] })] else sr) rn = sepRowsOf sr rn := by
  split
  · exact sepRowsOf_ensure _ _ _ _ (by assumption)
  · rfl

theorem sepRowsOf_set (sr : List (String × SepEntry)) (kn rn : String) (e : SepEntry) :
    sepRowsOf (alistSet sr kn e) rn = if kn = rn then e.matched else sepRowsOf sr rn := by
  unfold sepRowsOf
  by_cases hk : kn = rn
  · subst hk
    rw [alistGet_set_self, if_pos rfl]
  · rw [alistGet_set_ne _ _ _ _ (fun hh => hk hh.symm), if_neg hk]

theorem ruleStep_rd_get (extra : Option String) (ty : String) (nm : Option String)
    (ipb : Bool) (tcs : List TaskCall) (maps : List (String × List String))
    (acc : RuleAcc) (r : Rule) (rn : String) :
    alistGetD (ruleStep extra ty nm ipb tcs maps acc r).result_dict rn []
      = alistGetD acc.result_dict rn [] ++
        (if (r.name == rn && (sepAppends extra tcs r || inlAppends extra tcs ipb r)) = true
         then [recordOf extra ty nm tcs maps r] else []) := by
  unfold ruleStep sepAppends inlAppends recordOf
  cases he : r.enabled <;> cases hs : r.separate_report <;>
    cases hm : (r.check tcs extra).1 <;> cases hb : ipb <;>
    simp [he, hs, hm, hb, alistGetD_ensure_set]

theorem ruleStep_rd_has (extra : Option String) (ty : String) (nm : Option String)
    (ipb : Bool) (tcs : List TaskCall) (maps : List (String × List String))
    (acc : RuleAcc) (r : Rule) (rn : String) :
    alistHas (ruleStep extra ty nm ipb tcs maps acc r).result_dict rn
      = (alistHas acc.result_dict rn ||
         (r.name == rn && (sepAppends extra tcs r || inlAppends extra tcs ipb r))) := by
  unfold ruleStep sepAppends inlAppends
  cases he : r.enabled <;> cases hs : r.separate_report <;>
    cases hm : (r.check tcs extra).1 <;> cases hb : ipb <;>
    simp [he, hs, hm, hb, alistHas_ensure_set, Bool.or_comm]
  all_goals (by_cases hrn : r.name = rn <;> simp [hrn])

theorem ruleStep_sepRows (extra : Option String) (ty : String) (nm : Option String)
    (ipb : Bool) (tcs : List TaskCall) (maps : List (String × List String))
    (acc : RuleAcc) (r : Rule) (rn : String) :
    sepRowsOf (ruleStep extra ty nm ipb tcs maps acc r).separate_report rn
      = sepRowsOf acc.separate_report rn ++
        (if (r.name == rn && sepAppends extra tcs r) = true
         then [{ label := ty, name := nm, message := (r.check tcs extra).2 }] else []) := by
  unfold ruleStep sepAppends
  by_cases he : r.enabled = false
  · simp [he]
  have he' : r.enabled = true := by simpa using he
  cases hm : (r.check tcs extra).1 with
  | false => cases hs : r.separate_report <;> simp [he, he', hs, hm, sepRowsOf_ensure_if]
  | true =>
    cases hs : r.separate_report with
    | false => cases hb : ipb <;> simp [he, he', hs, hm, hb]
    | true =>
      simp only [he', hs, hm, if_true, true_and, Bool.and_true, Bool.true_and]
      simp only [show ((true : Bool) = false) = False from by simp, if_false]
      rw [sepRowsOf_set]
      by_cases hrn : r.name = rn
      · subst hrn
        rw [if_pos rfl, sepRowsOf_matched_getD, sepRowsOf_ensure_if]
        simp
      · rw [if_neg hrn, sepRowsOf_ensure_if]
        simp [hrn]

theorem foldRules_rd_get (extra : Option String) (ty : String) (nm : Option String)
    (ipb : Bool) (tcs : List TaskCall) (maps : List (String × List String))
    (rules : List Rule) (rn : String) :
    ∀ acc : RuleAcc,
    alistGetD (rules.foldl (ruleStep extra ty nm ipb tcs maps) acc).result_dict rn []
      = alistGetD acc.result_dict rn [] ++
        ((rules.filter (fun r => r.name == rn &&
            (sepAppends extra tcs r || inlAppends extra tcs ipb r))).map
          (recordOf extra ty nm tcs maps)) := by
  induction rules with
  | nil => intro acc; simp
  | cons r rules ih =>
    intro acc
    rw [List.foldl_cons, ih, ruleStep_rd_get, List.filter_cons]
    by_cases hc : (r.name == rn && (sepAppends extra tcs r || inlAppends extra tcs ipb r)) = true
    · simp [hc]
    · simp [hc]

theorem foldRules_rd_has (extra : Option String) (ty : String) (nm : Option String)
    (ipb : Bool) (tcs : List TaskCall) (maps : List (String × List String))
    (rules : List Rule) (rn : String) :
    ∀ acc : RuleAcc,
    alistHas (rules.foldl (ruleStep extra ty nm ipb tcs maps) acc).result_dict rn
      = (alistHas acc.result_dict rn ||
         rules.any (fun r => r.name == rn &&
            (sepAppends extra tcs r || inlAppends extra tcs ipb r))) := by
  induction rules with
  | nil => intro acc; simp
  | cons r rules ih =>
    intro acc
    rw [List.foldl_cons, ih, ruleStep_rd_has]
    simp [Bool.or_assoc]

theorem foldRules_sepRows (extra : Option String) (ty : String) (nm : Option String)
    (ipb : Bool) (tcs : List TaskCall) (maps : List (String × List String))
    (rules : List Rule) (rn : String) :
    ∀ acc : RuleAcc,
    sepRowsOf (rules.foldl (ruleStep extra ty nm ipb tcs maps) acc).separate_report rn
      = sepRowsOf acc.separate_report rn ++
        ((rules.filter (fun r => r.name == rn && sepAppends extra tcs r)).map
          (fun r => { label := ty, name := nm, message := (r.check tcs extra).2 })) := by
  induction rules with
  | nil => intro acc; simp
  | cons r rules ih =>
    intro acc
    rw [List.foldl_cons, ih, ruleStep_sepRows, List.filter_cons]
    by_cases hc : (r.name == rn && sepAppends extra tcs r) = true
    · simp [hc]
    · simp [hc]

theorem foldRules_alt_ne_of_do_report (extra : Option String) (ty : String)
    (nm : Option String) (ipb : Bool) (tcs : List TaskCall)
    (maps : List (String × List String)) (rules : List Rule) :
    ∀ acc : RuleAcc,
    (acc.do_report = true → acc.tmp_result_txt_alt ≠ "") →
    (rules.foldl (ruleStep extra ty nm ipb tcs maps) acc).do_report = true →
    (rules.foldl (ruleStep extra ty nm ipb tcs maps) acc).tmp_result_txt_alt ≠ "" := by
  induction rules with
  | nil => intro acc h; exact h
  | cons r rules ih =>
    intro acc h
    rw [List.foldl_cons]
    refine ih _ ?_
    intro hdo
    rw [ruleStep_do_report] at hdo
    rw [ruleStep_alt]
    by_cases hi : inlAppends extra tcs ipb r = true
    · rw [if_pos hi]
      intro hempty
      have := congrArg String.length hempty
      simp [String.length_append] at this
      exact absurd this.2 (by decide)
    · rw [if_neg hi]
      apply h
      simpa [hi] using hdo

/-! ## Detect-step report lemmas -/

theorem detectStep_rd_has (rules : List Rule) (extra : Option String) (st : DetectState)
    (t : TaskCallsInTree) (rn : String) :
    alistHas (detectStep rules extra st (ForestElem.tree t)).result_dict rn
      = (alistHas st.result_dict rn ||
         rules.any (fun r => r.name == rn &&
            (sepAppends extra t.taskcalls r ||
             inlAppends extra t.taskcalls (detect_type t.root_key == "playbook") r))) := by
  simp only [detectStep]
  split <;> split <;> simp_all [foldRules_rd_has]

theorem detectStep_rd_get_role (rules : List Rule) (extra : Option String)
    (st : DetectState) (t : TaskCallsInTree) (rn : String)
    (h : detect_type t.root_key ≠ "playbook") :
    alistGetD (detectStep rules extra st (ForestElem.tree t)).result_dict rn []
      = alistGetD st.result_dict rn [] ++
        ((rules.filter (fun r => r.name == rn &&
            (sepAppends extra t.taskcalls r || inlAppends extra t.taskcalls false r))).map
          (recordOf extra (detect_type t.root_key) (key2name t.root_key) t.taskcalls
            st.role_to_playbook_mappings)) := by
  have hb : (detect_type t.root_key == "playbook") = false := by simp [h]
  simp only [detectStep, hb]
  split <;> split <;> simp_all [foldRules_rd_get]

theorem detectStep_sepRows (rules : List Rule) (extra : Option String)
    (st : DetectState) (t : TaskCallsInTree) (rn : String) :
    sepRowsOf (detectStep rules extra st (ForestElem.tree t)).separate_report rn
      = sepRowsOf st.separate_report rn ++
        ((rules.filter (fun r => r.name == rn && sepAppends extra t.taskcalls r)).map
          (fun r => { label := detect_type t.root_key, name := key2name t.root_key,
                      message := (r.check t.taskcalls extra).2 })) := by
  simp only [detectStep]
  split <;> split <;> simp_all [foldRules_sepRows]

theorem detectStep_no_inline (rules : List Rule) (extra : Option String)
    (st : DetectState) (t : TaskCallsInTree)
    (h : rules.any (inlAppends extra t.taskcalls (detect_type t.root_key == "playbook"))
        = false) :
    (detectStep rules extra st (ForestElem.tree t)).report_num = st.report_num ∧
    (detectStep rules extra st (ForestElem.tree t)).role_count_risk = st.role_count_risk ∧
    (detectStep rules extra st (ForestElem.tree t)).playbook_count_risk
      = st.playbook_count_risk ∧
    (detectStep rules extra st (ForestElem.tree t)).risk_found_playbooks
      = st.risk_found_playbooks ∧
    (detectStep rules extra st (ForestElem.tree t)).tmp_result_txt = st.tmp_result_txt := by
  simp only [detectStep]
  split <;> split
  all_goals try exact ⟨rfl, rfl, rfl, rfl, rfl⟩
  all_goals
    rename_i hcond
    exfalso
    rcases hcond with ⟨hdo, -⟩
    rw [foldRules_do_report] at hdo
    exact absurd hdo (by simp [h])

theorem detectStep_inline_section (rules : List Rule) (extra : Option String)
    (st : DetectState) (t : TaskCallsInTree)
    (h : rules.any (inlAppends extra t.taskcalls (detect_type t.root_key == "playbook"))
        = true) :
    (detectStep rules extra st (ForestElem.tree t)).report_num = st.report_num + 1 ∧
    (detectStep rules extra st (ForestElem.tree t)).role_count_risk
      = st.role_count_risk + 1 ∧
    (detectStep rules extra st (ForestElem.tree t)).playbook_count_risk
      = st.playbook_count_risk ∧
    ∃ used alt, (detectStep rules extra st (ForestElem.tree t)).tmp_result_txt
        = st.tmp_result_txt ++ incidentSection st.report_num (detect_type t.root_key)
            (key2name t.root_key) used alt := by
  have hpb : (detect_type t.root_key == "playbook") = false := by
    by_contra hc
    have hc' : (detect_type t.root_key == "playbook") = true := by
      revert hc; cases detect_type t.root_key == "playbook" <;> simp
    rw [hc'] at h
    have hall : rules.any (inlAppends extra t.taskcalls true) = false := by
      simp [inlAppends]
    rw [hall] at h
    exact Bool.false_ne_true h
  rw [hpb] at h
  simp only [detectStep, hpb]
  split
  · split
    · simp_all
    · rename_i hcond
      exfalso
      apply hcond
      constructor
      · rw [foldRules_do_report]; simp [h]
      · apply foldRules_alt_ne_of_do_report
        · intro hfalse; simp at hfalse
        · rw [foldRules_do_report]; simp [h]
  · split
    · exact ⟨by simp, by simp, by simp, _, _, rfl⟩
    · rename_i hcond
      exfalso
      apply hcond
      constructor
      · rw [foldRules_do_report]; simp [h]
      · apply foldRules_alt_ne_of_do_report
        · intro hfalse; simp at hfalse
        · rw [foldRules_do_report]; simp [h]

theorem detectStep_playbook_risk (rules : List Rule) (extra : Option String)
    (st : DetectState) (e : ForestElem) :
    (detectStep rules extra st e).playbook_count_risk = st.playbook_count_risk := by
  cases e with
  | notATree => rfl
  | tree t =>
    by_cases hA : rules.any
        (inlAppends extra t.taskcalls (detect_type t.root_key == "playbook")) = true
    · exact (detectStep_inline_section rules extra st t hA).2.2.1
    · have hA' : rules.any
          (inlAppends extra t.taskcalls (detect_type t.root_key == "playbook")) = false := by
        simpa using hA
      exact (detectStep_no_inline rules extra st t hA').2.2.1

theorem detectStep_role_total (rules : List Rule) (extra : Option String)
    (st : DetectState) (t : TaskCallsInTree) (h : detect_type t.root_key ≠ "playbook") :
    (detectStep rules extra st (ForestElem.tree t)).role_count_total
        = st.role_count_total + 1 ∧
    (detectStep rules extra st (ForestElem.tree t)).playbook_count_total
        = st.playbook_count_total := by
  have hb : (detect_type t.root_key == "playbook") = false := by simp [h]
  simp only [detectStep, hb]
  split <;> (try split) <;> simp_all

/-! ## Prefix-state lemmas -/

theorem statesAt_zero (rules : List Rule) (extra : Option String)
    (forest : List ForestElem) : statesAt rules extra forest 0 = initState := rfl

theorem statesAt_succ (rules : List Rule) (extra : Option String)
    (forest : List ForestElem) (n : Nat) :
    statesAt rules extra forest (n + 1)
      = (match forest[n]? with
         | some e => detectStep rules extra (statesAt rules extra forest n) e
         | none => statesAt rules extra forest n) := by
  unfold statesAt
  rw [List.take_succ, List.foldl_append]
  cases h : forest[n]? <;> simp [h]

theorem statesAt_view_mono (rules : List Rule) (extra : Option String)
    (forest : List ForestElem) (R P : String) :
    ∀ {m n : Nat}, m ≤ n →
    P ∈ usedInView (statesAt rules extra forest m) R →
    P ∈ usedInView (statesAt rules extra forest n) R := by
  intro m n hmn hP
  induction n, hmn using Nat.le_induction with
  | base => exact hP
  | succ n hmn ih =>
    rw [statesAt_succ]
    cases h : forest[n]? with
    | none => simpa [h] using ih
    | some e =>
      obtain ⟨suf, hsuf⟩ := detectStep_view_grow rules extra
        (statesAt rules extra forest n) e R
      simp only [h]
      rw [hsuf]
      exact List.mem_append_left _ ih

theorem statesAt_view_not_mem (rules : List Rule) (extra : Option String)
    (forest : List ForestElem) (R P : String) {m n : Nat} (hmn : m ≤ n)
    (h : P ∉ usedInView (statesAt rules extra forest n) R) :
    P ∉ usedInView (statesAt rules extra forest m) R :=
  fun hm => h (statesAt_view_mono rules extra forest R P hmn hm)

/-! ## Whole-run fold lemmas -/

theorem fold_playbook_risk (rules : List Rule) (extra : Option String) :
    ∀ (forest : List ForestElem) (st : DetectState),
    (forest.foldl (detectStep rules extra) st).playbook_count_risk
      = st.playbook_count_risk := by
  intro forest
  induction forest with
  | nil => intro st; rfl
  | cons e forest ih =>
    intro st
    rw [List.foldl_cons, ih, detectStep_playbook_risk]

theorem fold_rd_has (rules : List Rule) (extra : Option String) :
    ∀ (forest : List ForestElem) (st : DetectState) (rn : String),
    alistHas (forest.foldl (detectStep rules extra) st).result_dict rn
      = (alistHas st.result_dict rn || forest.any (treeYieldsRecord extra rules rn)) := by
  intro forest
  induction forest with
  | nil => intro st rn; simp
  | cons e forest ih =>
    intro st rn
    rw [List.foldl_cons, ih]
    cases e with
    | notATree => simp [detectStep_notATree, treeYieldsRecord]
    | tree t =>
      rw [detectStep_rd_has]
      simp [treeYieldsRecord, Bool.or_assoc]

theorem alistHas_iff_exists {α : Type} (m : List (String × α)) (k : String) :
    alistHas m k = true ↔ ∃ p ∈ m, p.1 = k := by
  induction m with
  | nil => simp [alistHas]
  | cons p m ih =>
    obtain ⟨k₀, v₀⟩ := p
    simp [alistHas_cons, ih]

/-! ## Claim theorems -/

/-- C6: `detect` is deterministic: with the rule set, forest and collection
name fixed (each rule's `check` being a pure Lean function), two runs produce
identical narrative text and identical structured reports. -/
theorem C6_detect_deterministic (rules₁ rules₂ : List Rule)
    (forest₁ forest₂ : List ForestElem) (c₁ c₂ : String)
    (hr : rules₁ = rules₂) (hf : forest₁ = forest₂) (hc : c₁ = c₂) :
    detect rules₁ forest₁ c₁ = detect rules₂ forest₂ c₂ := by
  rw [hr, hf, hc]

theorem C6_detect_deterministic_witness :
    detect [inlineRule] [ForestElem.tree pbTree1] ""
      = detect [inlineRule] [ForestElem.tree pbTree1] "" :=
  C6_detect_deterministic [inlineRule] [inlineRule] [ForestElem.tree pbTree1]
    [ForestElem.tree pbTree1] "" "" rfl rfl rfl

/-- C9: `homebrew` on `{"name": "wget", "state": "absent"}` yields
`{"pkg": "wget", "delete": true}`; on any non-mapping value it yields `{}`;
and the `delete` flag is produced only when the `state` field equals exactly
`"absent"`. -/
theorem C9_homebrew_concretizer :
    homebrew (PyVal.vdict [("name", PyVal.str "wget"), ("state", PyVal.str "absent")])
      = [("pkg", PyVal.str "wget"), ("delete", PyVal.bool true)] ∧
    (∀ v : PyVal, (∀ es, v ≠ PyVal.vdict es) → homebrew v = []) ∧
    (∀ opts : PyVal, pyDictHas (homebrew opts) "delete" = true →
      ∃ es, opts = PyVal.vdict es ∧
        pyValEq (pyDictGet es "state") (PyVal.str "absent") = true) := by
  refine ⟨rfl, ?_, ?_⟩
  · intro v hv
    cases v <;> first | rfl | exact absurd rfl (hv _)
  · intro opts h
    cases opts with
    | vdict es =>
      refine ⟨es, rfl, ?_⟩
      by_cases hst : pyDictHas es "state" ∧
          pyValEq (pyDictGet es "state") (PyVal.str "absent") = true
      · exact hst.2
      · exfalso
        simp only [homebrew] at h
        rw [if_neg hst] at h
        split at h <;> simp [pyDictHas] at h
    | str sv => simp [homebrew, pyDictHas] at h
    | int iv => simp [homebrew, pyDictHas] at h
    | bool bv => simp [homebrew, pyDictHas] at h
    | vlist xs => simp [homebrew, pyDictHas] at h
    | vnone => simp [homebrew, pyDictHas] at h

theorem C9_homebrew_concretizer_witness :
    homebrew PyVal.vnone = [] ∧
    (∃ es, PyVal.vdict [("state", PyVal.str "absent")] = PyVal.vdict es ∧
      pyValEq (pyDictGet es "state") (PyVal.str "absent") = true) :=
  ⟨C9_homebrew_concretizer.2.1 PyVal.vnone (fun es h => PyVal.noConfusion h),
   C9_homebrew_concretizer.2.2 (PyVal.vdict [("state", PyVal.str "absent")]) rfl⟩

set_option maxRecDepth 10000 in
/-- C10: in every structured report the `playbooks` summary entry, when
present, has `risk_found = 0` (the `playbook_count["risk"] += 1` branch is
unreachable, since an incident section requires an inline match on a
non-playbook tree); yet the narrative `Risk Found` line for playbooks, which
prints the size of `risk_found_playbooks`, can be non-zero in the same
run. -/
theorem C10_structured_playbook_risk_zero :
    (∀ (rules : List Rule) (forest : List ForestElem) (c : String) (se : SummaryEntry),
      (detect rules forest c).2.playbooks = some se → se.risk_found = 0) ∧
    (detect [inlineRule] [ForestElem.tree pbTree1, ForestElem.tree roleTree1] "").2.playbooks
        = some { total := 1, risk_found := 0 } ∧
    pyIn "Risk Found: 1"
      (detect [inlineRule] [ForestElem.tree pbTree1, ForestElem.tree roleTree1] "").1
        = true := by
  refine ⟨?_, by decide, by decide⟩
  intro rules forest c se h
  unfold detect at h
  dsimp only at h
  split at h
  · have h2 := Option.some.inj h
    have h3 := congrArg SummaryEntry.risk_found h2
    dsimp only at h3
    rw [← h3, fold_playbook_risk]
    rfl
  · exact absurd h (by simp)

theorem C10_structured_playbook_risk_zero_witness :
    (detect [inlineRule] [ForestElem.tree pbTree1] "").2.playbooks
        = some { total := 1, risk_found := 0 } ∧
    ({ total := 1, risk_found := 0 } : SummaryEntry).risk_found = 0 :=
  ⟨by decide,
   C10_structured_playbook_risk_zero.1 [inlineRule] [ForestElem.tree pbTree1] ""
     { total := 1, risk_found := 0 } (by decide)⟩

/-- C1 counterexample: a tree whose `root_key` parses to neither playbook
nor role is not skipped: on the forest `[badTree]` the roles summary records
`total = 1`, so `role_count.total` was incremented, contradicting the claim
that such a tree is not counted. -/
theorem C1_counterexample :
    (detect [] [ForestElem.tree badTree] "").2.roles
      = some { total := 1, risk_found := 0 } := by decide

/-- C1 (amended): an input element that is not a `TaskCallsInTree` is
silently skipped (removing it from the forest leaves the entire output of
`detect` unchanged); but a tree whose `root_key` does not parse to the
playbook type is NOT skipped: it is counted in `role_count.total` (the
`else` branch) and leaves `playbook_count.total` unchanged. -/
theorem C1_non_tree_skipped_unparsable_counted_as_role :
    (∀ (rules : List Rule) (c : String) (l₁ l₂ : List ForestElem),
      detect rules (l₁ ++ ForestElem.notATree :: l₂) c = detect rules (l₁ ++ l₂) c) ∧
    (∀ (rules : List Rule) (extra : Option String) (st : DetectState)
        (t : TaskCallsInTree),
      detect_type t.root_key ≠ "playbook" →
      (detectStep rules extra st (ForestElem.tree t)).role_count_total
          = st.role_count_total + 1 ∧
      (detectStep rules extra st (ForestElem.tree t)).playbook_count_total
          = st.playbook_count_total) := by
  constructor
  · intro rules c l₁ l₂
    have hfold : ∀ extra : Option String,
        (l₁ ++ ForestElem.notATree :: l₂).foldl (detectStep rules extra) initState
          = (l₁ ++ l₂).foldl (detectStep rules extra) initState := by
      intro extra
      rw [List.foldl_append, List.foldl_cons, detectStep_notATree, ← List.foldl_append]
    unfold detect
    dsimp only
    rw [hfold]
  · intro rules extra st t h
    exact detectStep_role_total rules extra st t h

theorem C1_non_tree_skipped_witness :
    detect [] ([ForestElem.tree pbTree1] ++ ForestElem.notATree :: []) ""
        = detect [] ([ForestElem.tree pbTree1] ++ []) "" ∧
    (detectStep [] Option.none initState (ForestElem.tree badTree)).role_count_total
        = initState.role_count_total + 1 :=
  ⟨C1_non_tree_skipped_unparsable_counted_as_role.1 [] "" [ForestElem.tree pbTree1] [],
   (C1_non_tree_skipped_unparsable_counted_as_role.2 [] Option.none initState badTree
     (by decide)).1⟩

/-- C2 counterexample: with one enabled rule that never matches
(`sepNever`, a tabulated rule) and a one-playbook forest, the structured
report's `details` list is empty — it contains no entry for the enabled
rule, contradicting the claim that an entry is present regardless of
whether the rule matched. -/
theorem C2_counterexample :
    (detect [sepNever] [ForestElem.tree pbTree1] "").2.details = [] := by decide

/-- C2 (amended): the structured report's `details` list contains an entry
for rule name `rn` exactly when some enabled rule named `rn` produced at
least one result record during the run: a match on any tree for a tabulated
rule, or a match on a non-playbook tree for an inline rule.  A rule that
never produced a record is absent from `details`. -/
theorem C2_details_iff_some_record (rules : List Rule) (forest : List ForestElem)
    (c : String) (rn : String) :
    (∃ p ∈ (detect rules forest c).2.details, p.1 = rn)
      ↔ ∃ t, ForestElem.tree t ∈ forest ∧ ∃ r ∈ rules, r.name = rn ∧
          (sepAppends (extraArgs c) t.taskcalls r = true ∨
           inlAppends (extraArgs c) t.taskcalls
             (detect_type t.root_key == "playbook") r = true) := by
  have hdet : (detect rules forest c).2.details
      = (forest.foldl (detectStep rules (extraArgs c)) initState).result_dict := rfl
  rw [hdet]
  constructor
  · intro hL
    have hhas := (alistHas_iff_exists _ _).mpr hL
    rw [fold_rd_has] at hhas
    have hinit : alistHas (initState.result_dict) rn = false := rfl
    rw [hinit, Bool.false_or, List.any_eq_true] at hhas
    obtain ⟨e, he, hy⟩ := hhas
    cases e with
    | notATree => simp [treeYieldsRecord] at hy
    | tree t =>
      refine ⟨t, he, ?_⟩
      simp only [treeYieldsRecord, List.any_eq_true] at hy
      obtain ⟨r, hr, hcond⟩ := hy
      simp only [Bool.and_eq_true, Bool.or_eq_true, beq_iff_eq] at hcond
      exact ⟨r, hr, hcond.1, hcond.2⟩
  · rintro ⟨t, ht, r, hr, hname, hcond⟩
    apply (alistHas_iff_exists _ _).mp
    rw [fold_rd_has]
    have hany : forest.any (treeYieldsRecord (extraArgs c) rules rn) = true := by
      rw [List.any_eq_true]
      refine ⟨ForestElem.tree t, ht, ?_⟩
      simp only [treeYieldsRecord, List.any_eq_true]
      refine ⟨r, hr, ?_⟩
      simp [hname, hcond]
    rw [hany, Bool.or_true]

/-- C5: for an enabled tabulated rule `r` whose name no other rule shares,
processing any tree appends exactly one row
`[root type, root name, message]` to `r`'s shared table when `check`
matched, and none otherwise; and on a tree where no enabled inline rule
matches, the step changes neither risk counter, nor the incident counter,
nor `risk_found_playbooks`. -/
theorem C5_tabulated_independence (rules₁ rules₂ : List Rule) (r : Rule)
    (extra : Option String) (st : DetectState) (t : TaskCallsInTree)
    (hnames : ∀ r' ∈ rules₁ ++ rules₂, r'.name ≠ r.name)
    (hen : r.enabled = true) (hsep : r.separate_report = true) :
    (sepRowsOf (detectStep (rules₁ ++ r :: rules₂) extra st
          (ForestElem.tree t)).separate_report r.name
      = sepRowsOf st.separate_report r.name ++
        (if (r.check t.taskcalls extra).1 = true
         then [{ label := detect_type t.root_key, name := key2name t.root_key,
                 message := (r.check t.taskcalls extra).2 }]
         else [])) ∧
    ((∀ r' ∈ rules₁ ++ r :: rules₂,
        inlAppends extra t.taskcalls (detect_type t.root_key == "playbook") r' = false) →
      (detectStep (rules₁ ++ r :: rules₂) extra st
          (ForestElem.tree t)).playbook_count_risk = st.playbook_count_risk ∧
      (detectStep (rules₁ ++ r :: rules₂) extra st
          (ForestElem.tree t)).role_count_risk = st.role_count_risk ∧
      (detectStep (rules₁ ++ r :: rules₂) extra st
          (ForestElem.tree t)).report_num = st.report_num ∧
      (detectStep (rules₁ ++ r :: rules₂) extra st
          (ForestElem.tree t)).risk_found_playbooks = st.risk_found_playbooks) := by
  constructor
  · rw [detectStep_sepRows]
    have h1 : rules₁.filter
        (fun r' => r'.name == r.name && sepAppends extra t.taskcalls r') = [] := by
      rw [List.filter_eq_nil_iff]
      intro r' hr'
      simp [hnames r' (List.mem_append_left _ hr')]
    have h2 : rules₂.filter
        (fun r' => r'.name == r.name && sepAppends extra t.taskcalls r') = [] := by
      rw [List.filter_eq_nil_iff]
      intro r' hr'
      simp [hnames r' (List.mem_append_right _ hr')]
    rw [List.filter_append, h1, List.filter_cons, h2]
    congr 1
    cases hm : (r.check t.taskcalls extra).1 <;>
      simp [sepAppends, hen, hsep, hm]
  · intro hno
    have hA : (rules₁ ++ r :: rules₂).any
        (inlAppends extra t.taskcalls (detect_type t.root_key == "playbook")) = false := by
      rw [List.any_eq_false]
      intro r' hr'
      simp [hno r' hr']
    have h := detectStep_no_inline (rules₁ ++ r :: rules₂) extra st t hA
    exact ⟨h.2.2.1, h.2.1, h.1, h.2.2.2.1⟩

theorem C5_tabulated_independence_witness :
    sepRowsOf (detectStep ([] ++ sepRule :: []) Option.none initState
        (ForestElem.tree roleTree1)).separate_report sepRule.name
      = sepRowsOf initState.separate_report sepRule.name ++
        (if (sepRule.check roleTree1.taskcalls Option.none).1 = true
         then [{ label := detect_type roleTree1.root_key,
                 name := key2name roleTree1.root_key,
                 message := (sepRule.check roleTree1.taskcalls Option.none).2 }]
         else []) :=
  (C5_tabulated_independence [] [] sepRule Option.none initState roleTree1
    (by simp) rfl rfl).1

/-- C4: on a role tree matched by at least one enabled inline rule, the step
emits exactly one numbered incident section (the incident counter rises by
exactly 1 and exactly one `#n ROLE - name` section is appended to the
narrative buffer) and `role_count.risk` rises by exactly 1; with zero inline
matches, the buffer and both counters are unchanged. -/
theorem C4_single_incident_per_role_tree (rules : List Rule) (extra : Option String)
    (st : DetectState) (t : TaskCallsInTree)
    (hrole : detect_type t.root_key = "role") :
    ((∃ r ∈ rules, r.enabled = true ∧ r.separate_report = false ∧
        (r.check t.taskcalls extra).1 = true) →
      (detectStep rules extra st (ForestElem.tree t)).role_count_risk
          = st.role_count_risk + 1 ∧
      (detectStep rules extra st (ForestElem.tree t)).report_num = st.report_num + 1 ∧
      ∃ used alt, (detectStep rules extra st (ForestElem.tree t)).tmp_result_txt
          = st.tmp_result_txt ++
            incidentSection st.report_num "role" (key2name t.root_key) used alt) ∧
    ((∀ r ∈ rules, ¬(r.enabled = true ∧ r.separate_report = false ∧
        (r.check t.taskcalls extra).1 = true)) →
      (detectStep rules extra st (ForestElem.tree t)).role_count_risk
          = st.role_count_risk ∧
      (detectStep rules extra st (ForestElem.tree t)).report_num = st.report_num ∧
      (detectStep rules extra st (ForestElem.tree t)).tmp_result_txt
          = st.tmp_result_txt) := by
  have hpb : (detect_type t.root_key == "playbook") = false := by
    rw [hrole]; decide
  constructor
  · rintro ⟨r, hr, hren, hrsep, hrm⟩
    have hA : rules.any
        (inlAppends extra t.taskcalls (detect_type t.root_key == "playbook")) = true := by
      rw [List.any_eq_true]
      refine ⟨r, hr, ?_⟩
      simp [inlAppends, hren, hrsep, hrm, hpb]
    have h := detectStep_inline_section rules extra st t hA
    refine ⟨h.2.1, h.1, ?_⟩
    rw [← hrole]
    exact h.2.2.2
  · intro hno
    have hA : rules.any
        (inlAppends extra t.taskcalls (detect_type t.root_key == "playbook")) = false := by
      rw [List.any_eq_false]
      intro r hr
      have := hno r hr
      cases hE : r.enabled <;> cases hS : r.separate_report <;>
        cases hM : (r.check t.taskcalls extra).1 <;>
        simp_all [inlAppends]
    have h := detectStep_no_inline rules extra st t hA
    exact ⟨h.2.1, h.1, h.2.2.2.2⟩

theorem C4_single_incident_witness :
    ((detectStep [inlineRule] Option.none initState
        (ForestElem.tree roleTree1)).role_count_risk = initState.role_count_risk + 1) ∧
    ((detectStep [inlineNever] Option.none initState
        (ForestElem.tree roleTree1)).role_count_risk = initState.role_count_risk) := by
  constructor
  · exact ((C4_single_incident_per_role_tree [inlineRule] Option.none initState roleTree1
      (by decide)).1 ⟨inlineRule, List.mem_singleton.mpr rfl, rfl, rfl, rfl⟩).1
  · refine ((C4_single_incident_per_role_tree [inlineNever] Option.none initState roleTree1
      (by decide)).2 ?_).1
    intro r hr h
    rw [List.mem_singleton] at hr
    subst hr
    exact absurd h.2.2 (by decide)

/-- Helper for the ordering-caveat claim: when forest index `n` holds a role
tree named `R` on which the enabled inline rule `r` matches, the step at `n`
appends a structured record for `r` whose `playbooks_use_this_role` is the
snapshot of the role-to-playbook mapping as it stood *before* index `n`. -/
theorem inline_record_at_index (rules : List Rule) (extra : Option String)
    (forest : List ForestElem) (n : Nat) (t : TaskCallsInTree) (R : String) (r : Rule)
    (hn : forest[n]? = some (ForestElem.tree t))
    (hrole : detect_type t.root_key = "role") (hname : key2name t.root_key = some R)
    (hr : r ∈ rules) (hen : r.enabled = true) (hsep : r.separate_report = false)
    (hmatch : (r.check t.taskcalls extra).1 = true) :
    ∃ rec ∈ alistGetD (statesAt rules extra forest (n + 1)).result_dict r.name [],
      rec.name = some R ∧
      rec.playbooks_use_this_role
        = some (usedInView (statesAt rules extra forest n) R) := by
  rw [statesAt_succ]
  simp only [hn]
  rw [detectStep_rd_get_role rules extra (statesAt rules extra forest n) t r.name
    (by rw [hrole]; decide)]
  refine ⟨recordOf extra (detect_type t.root_key) (key2name t.root_key) t.taskcalls
    (statesAt rules extra forest n).role_to_playbook_mappings r, ?_, ?_, ?_⟩
  · apply List.mem_append_right
    apply List.mem_map_of_mem
    apply List.mem_filter.mpr
    refine ⟨hr, ?_⟩
    simp [sepAppends, inlAppends, hen, hsep, hmatch]
  · simp [recordOf, hsep, hname]
  · simp [recordOf, hsep, hname, mappingsGetName, usedInView]

/-- C3: if role name `R` is first linked to playbook `P` while processing
index `i` (the mapping lacks `P` before `i` and holds it after), then an
inline-rule-matching role tree named `R` at index `j > i` records a
`used_in` snapshot containing `P`, while one at index `k < i` records a
snapshot not containing `P`. -/
theorem C3_used_in_ordering_caveat (rules : List Rule) (extra : Option String)
    (forest : List ForestElem) (i j k : Nat) (t t' : TaskCallsInTree)
    (R P : String) (r : Rule)
    (hki : k < i) (hij : i < j)
    (hj : forest[j]? = some (ForestElem.tree t))
    (hjrole : detect_type t.root_key = "role")
    (hjname : key2name t.root_key = some R)
    (hk : forest[k]? = some (ForestElem.tree t'))
    (hkrole : detect_type t'.root_key = "role")
    (hkname : key2name t'.root_key = some R)
    (hfirst : P ∉ usedInView (statesAt rules extra forest i) R)
    (hlinked : P ∈ usedInView (statesAt rules extra forest (i + 1)) R)
    (hr : r ∈ rules) (hen : r.enabled = true) (hsep : r.separate_report = false)
    (hmatchj : (r.check t.taskcalls extra).1 = true)
    (hmatchk : (r.check t'.taskcalls extra).1 = true) :
    (∃ rec ∈ alistGetD (statesAt rules extra forest (j + 1)).result_dict r.name [],
        rec.name = some R ∧
        rec.playbooks_use_this_role
          = some (usedInView (statesAt rules extra forest j) R) ∧
        P ∈ usedInView (statesAt rules extra forest j) R) ∧
    (∃ rec ∈ alistGetD (statesAt rules extra forest (k + 1)).result_dict r.name [],
        rec.name = some R ∧
        rec.playbooks_use_this_role
          = some (usedInView (statesAt rules extra forest k) R) ∧
        P ∉ usedInView (statesAt rules extra forest k) R) := by
  constructor
  · obtain ⟨rec, hmem, hrn, hused⟩ :=
      inline_record_at_index rules extra forest j t R r hj hjrole hjname hr hen hsep hmatchj
    refine ⟨rec, hmem, hrn, hused, ?_⟩
    exact statesAt_view_mono rules extra forest R P hij hlinked
  · obtain ⟨rec, hmem, hrn, hused⟩ :=
      inline_record_at_index rules extra forest k t' R r hk hkrole hkname hr hen hsep hmatchk
    refine ⟨rec, hmem, hrn, hused, ?_⟩
    exact statesAt_view_not_mem rules extra forest R P (Nat.le_of_lt hki) hfirst

theorem C3_used_in_ordering_caveat_witness :
    (∃ rec ∈ alistGetD (statesAt [inlineRule] Option.none orderingForest 3).result_dict
        inlineRule.name [],
      rec.name = some "r1" ∧
      rec.playbooks_use_this_role
        = some (usedInView (statesAt [inlineRule] Option.none orderingForest 2) "r1") ∧
      "site.yml" ∈ usedInView (statesAt [inlineRule] Option.none orderingForest 2) "r1") ∧
    (∃ rec ∈ alistGetD (statesAt [inlineRule] Option.none orderingForest 1).result_dict
        inlineRule.name [],
      rec.name = some "r1" ∧
      rec.playbooks_use_this_role
        = some (usedInView (statesAt [inlineRule] Option.none orderingForest 0) "r1") ∧
      "site.yml" ∉ usedInView (statesAt [inlineRule] Option.none orderingForest 0) "r1") :=
  C3_used_in_ordering_caveat [inlineRule] Option.none orderingForest 1 2 0
    roleTree1 roleTree1 "r1" "site.yml" inlineRule
    (by decide) (by decide) (by decide) (by decide) (by decide)
    (by decide) (by decide) (by decide) (by decide) (by decide)
    (List.mem_singleton.mpr rfl) rfl rfl rfl rfl

/-- C7: throughout a run, the role-to-playbook mapping only grows (each
step appends a suffix to every role's list); a non-playbook tree leaves the
mapping untouched; and on a playbook tree the list for role `R` is extended
by exactly the playbook's name, appended at most once (only if absent), and
only when some task's `defined_in` path starts with the `roles` segment and
names `R` as its second segment. -/
theorem C7_mappings_append_only (rules : List Rule) (extra : Option String) :
    (∀ (st : DetectState) (e : ForestElem) (R : String),
      ∃ suf, usedInView (detectStep rules extra st e) R = usedInView st R ++ suf) ∧
    (∀ (st : DetectState) (t : TaskCallsInTree),
      detect_type t.root_key ≠ "playbook" →
      (detectStep rules extra st (ForestElem.tree t)).role_to_playbook_mappings
        = st.role_to_playbook_mappings) ∧
    (∀ (st : DetectState) (t : TaskCallsInTree) (R : String),
      detect_type t.root_key = "playbook" →
      usedInView (detectStep rules extra st (ForestElem.tree t)) R
        = if (∃ tc ∈ t.taskcalls, taskRole tc = some R) ∧
             (key2name t.root_key).getD "" ∉ usedInView st R
          then usedInView st R ++ [(key2name t.root_key).getD ""]
          else usedInView st R) := by
  refine ⟨detectStep_view_grow rules extra, ?_, ?_⟩
  · intro st t h
    rw [detectStep_mappings, if_neg h]
  · intro st t R h
    unfold usedInView
    rw [detectStep_mappings, if_pos h, foldRegister_view]

theorem C7_mappings_append_only_witness :
    ((detectStep [] Option.none initState
        (ForestElem.tree roleTree1)).role_to_playbook_mappings
      = initState.role_to_playbook_mappings) ∧
    usedInView (detectStep [] Option.none initState (ForestElem.tree pbTree1)) "r1"
      = (if (∃ tc ∈ pbTree1.taskcalls, taskRole tc = some "r1") ∧
            (key2name pbTree1.root_key).getD "" ∉ usedInView initState "r1"
         then usedInView initState "r1" ++ [(key2name pbTree1.root_key).getD ""]
         else usedInView initState "r1") :=
  ⟨(C7_mappings_append_only [] Option.none).2.1 initState roleTree1 (by decide),
   (C7_mappings_append_only [] Option.none).2.2 initState pbTree1 "r1" (by decide)⟩

set_option maxRecDepth 10000 in
/-- C8: when a tabulated rule accumulated zero rows, its section renders the
rule's `all_ok_message` with the subject placeholder replaced by
`make_subject_str` of the run's counts — "playbooks" when only playbooks
were counted, "roles" when only roles, "playbooks/roles" when both; in
particular a concrete run of 3 playbooks and 2 roles with a never-matching
tabulated rule renders "playbooks/roles" in the narrative. -/
theorem C8_all_ok_message_subject :
    (∀ pt rt : Nat, pt > 0 → rt = 0 → make_subject_str pt rt = "playbooks") ∧
    (∀ pt rt : Nat, pt = 0 → rt > 0 → make_subject_str pt rt = "roles") ∧
    (∀ pt rt : Nat, pt > 0 → rt > 0 → make_subject_str pt rt = "playbooks/roles") ∧
    (∀ (pt rt : Nat) (label : String) (entry : SepEntry),
      entry.matched = [] → entry.rule.all_ok_message ≠ "" →
      sepSectionTxt pt rt label entry
        = label ++ "\n" ++
          indentTxt (pyReplace ("  " ++ entry.rule.all_ok_message) subject_placeholder
            (make_subject_str pt rt)) 0 ++ "\n" ++ sep90 ++ "\n") ∧
    ((forest32.foldl (detectStep [sepNever] (extraArgs "")) initState).playbook_count_total
        = 3 ∧
     (forest32.foldl (detectStep [sepNever] (extraArgs "")) initState).role_count_total
        = 2 ∧
     sepRowsOf (forest32.foldl (detectStep [sepNever]
        (extraArgs "")) initState).separate_report "sep-never" = [] ∧
     pyIn "All playbooks/roles are fine" (detect [sepNever] forest32 "").1 = true) := by
  refine ⟨?_, ?_, ?_, ?_, by decide, by decide, by decide, by decide⟩
  · intro pt rt h1 h2
    simp [make_subject_str, h1, h2]
  · intro pt rt h1 h2
    simp [make_subject_str, h1, h2]
  · intro pt rt h1 h2
    simp [make_subject_str, h1, h2]
  · intro pt rt label entry h1 h2
    simp [sepSectionTxt, h1, h2]

theorem C8_all_ok_message_subject_witness :
    make_subject_str 3 0 = "playbooks" ∧
    sepSectionTxt 3 2 "sep-never" { rule := sepNever, matched := [] }
      = "sep-never" ++ "\n" ++
        indentTxt (pyReplace ("  " ++ sepNever.all_ok_message) subject_placeholder
          (make_subject_str 3 2)) 0 ++ "\n" ++ sep90 ++ "\n" :=
  ⟨C8_all_ok_message_subject.1 3 0 (by decide) rfl,
   C8_all_ok_message_subject.2.2.2.1 3 2 "sep-never" { rule := sepNever, matched := [] }
     rfl (by decide)⟩

end AnsibleRiskInsight
